import Mathlib

/-!
Shallow embedding of the rust-ghostcore-zmq crate, covering the frame codec
in src/message.rs and the stream / handshake state machines in
src/subscribe/stream.rs.  Byte strings are modelled as `List Nat`, machine
integers as `Nat`, fallible Rust code as explicit outcome types, and a Rust
panic as an explicit `panicked` / `none` outcome.
-/

namespace GhostZmq

/-- The little-endian reading of a 4-byte frame, as done by
`u32::from_le_bytes` in `Message::from_parts`.  The argument always has
length 4 at the call site (checked by `from_fixed_size_multipart`); any
other shape maps to 0 (unreachable). -/
def fromLeBytes4 : List Nat → Nat
  | [a, b, c, d] => a + b * 256 + c * 65536 + d * 16777216
  | _ => 0

/-- The little-endian 4-byte encoding of a `u32`, as done by
`u32::to_le_bytes` in `Message::serialize_to_vecs`. -/
def toLeBytes4 (n : Nat) : List Nat :=
  [n % 256, n / 256 % 256, n / 65536 % 256, n / 16777216 % 256]

/-- ASCII bytes of the topic string `hashblock`. -/
def hashblockTopic : List Nat := [104, 97, 115, 104, 98, 108, 111, 99, 107]

/-- ASCII bytes of the topic string `hashtx`. -/
def hashtxTopic : List Nat := [104, 97, 115, 104, 116, 120]

/-- ASCII bytes of the topic string `hashwtx`. -/
def hashwtxTopic : List Nat := [104, 97, 115, 104, 119, 116, 120]

/-- ASCII bytes of the topic string `rawblock`. -/
def rawblockTopic : List Nat := [114, 97, 119, 98, 108, 111, 99, 107]

/-- ASCII bytes of the topic string `rawtx`. -/
def rawtxTopic : List Nat := [114, 97, 119, 116, 120]

/-- ASCII bytes of the topic string `sequence`. -/
def sequenceTopic : List Nat := [115, 101, 113, 117, 101, 110, 99, 101]

/-- `TOPIC_MAX_LEN` from src/message.rs. -/
def TOPIC_MAX_LEN : Nat := 9

/-- The UTF-8 bytes of U+FFFD, the replacement character used by
`String::from_utf8_lossy`. -/
def replacementChar : List Nat := [0xEF, 0xBF, 0xBD]

/-- Whether a byte is a UTF-8 continuation byte (`0x80..=0xBF`). -/
def isCont (b : Nat) : Bool := 0x80 ≤ b && b ≤ 0xBF

/-- The valid range of the second byte of a multi-byte UTF-8 sequence,
given its first byte, per the UTF-8 validation used by Rust `core::str`. -/
def validSecond (b c1 : Nat) : Bool :=
  if b = 0xE0 then 0xA0 ≤ c1 && c1 ≤ 0xBF
  else if b = 0xED then 0x80 ≤ c1 && c1 ≤ 0x9F
  else if b = 0xF0 then 0x90 ≤ c1 && c1 ≤ 0xBF
  else if b = 0xF4 then 0x80 ≤ c1 && c1 ≤ 0x8F
  else isCont c1

/-- Embedding of `String::from_utf8_lossy` (used on the wallet label in the
`hashwtx` branch of `Message::from_parts`), returning the UTF-8 bytes of the
resulting string: valid sequences are copied verbatim, each maximal invalid
subpart is replaced by U+FFFD, and the function never fails. -/
def from_utf8_lossy : List Nat → List Nat
  | [] => []
  | b :: rest =>
    if b ≤ 0x7F then b :: from_utf8_lossy rest
    else if 0xC2 ≤ b && b ≤ 0xDF then
      match rest with
      | [] => replacementChar
      | c1 :: r1 =>
        if isCont c1 then b :: c1 :: from_utf8_lossy r1
        else replacementChar ++ from_utf8_lossy (c1 :: r1)
    else if 0xE0 ≤ b && b ≤ 0xEF then
      match rest with
      | [] => replacementChar
      | c1 :: r1 =>
        if validSecond b c1 then
          match r1 with
          | [] => replacementChar
          | c2 :: r2 =>
            if isCont c2 then b :: c1 :: c2 :: from_utf8_lossy r2
            else replacementChar ++ from_utf8_lossy (c2 :: r2)
        else replacementChar ++ from_utf8_lossy (c1 :: r1)
    else if 0xF0 ≤ b && b ≤ 0xF4 then
      match rest with
      | [] => replacementChar
      | c1 :: r1 =>
        if validSecond b c1 then
          match r1 with
          | [] => replacementChar
          | c2 :: r2 =>
            if isCont c2 then
              match r2 with
              | [] => replacementChar
              | c3 :: r3 =>
                if isCont c3 then b :: c1 :: c2 :: c3 :: from_utf8_lossy r3
                else replacementChar ++ from_utf8_lossy (c3 :: r3)
            else replacementChar ++ from_utf8_lossy (c2 :: r2)
        else replacementChar ++ from_utf8_lossy (c1 :: r1)
    else replacementChar ++ from_utf8_lossy rest

/-- An injected byte codec.  `Block` and `Transaction` payloads are handled
by the external `bitcoin` consensus codec (`deserialize` / `serialize`) and
`sequence` payloads by `SequenceMessage` (crate code not under src/);
following the spec, both are opaque injected codecs turning bytes into
domain objects and back, with failures propagated as decode errors. -/
structure Codec (α : Type) where
  ser : α → List Nat
  deser : List Nat → Option α

/-- The error enum of the crate (error.rs is not under src/; the variants
and their payloads are modelled from their construction sites in
src/message.rs and from the spec error taxonomy).  `InvalidTopic` carries
the original topic length and the fixed 9-byte zero-initialized buffer
holding the first `min 9 len` topic bytes, exactly as built in
`Message::from_parts`. -/
inductive Error where
  | InvalidMutlipartLength : Nat → Error
  | InvalidSequenceLength : Nat → Error
  | InvalidTopic : Nat → List Nat → Error
  | Invalid256BitHashLength : Nat → Error
  | InvalidSequenceMessageLength : Nat → Error
  | ConsensusDecodeError : Error
deriving DecidableEq, Repr

/-- The `Message` enum from src/message.rs.  Hashes (`BlockHash`, `Txid`)
are their 32-byte arrays as `List Nat`; the wallet label `String` is its
UTF-8 byte list; the `u32` sequence number is a `Nat`; `B`, `T`, `S` are
the `Block`, `Transaction` and `SequenceMessage` domain types of the
injected codecs. -/
inductive Message (B T S : Type) where
  | HashBlock : List Nat → Nat → Message B T S
  | HashTx : List Nat → Nat → Message B T S
  | HashWTx : List Nat → List Nat → Nat → Message B T S
  | Block : B → Nat → Message B T S
  | Tx : T → Nat → Message B T S
  | Sequence : S → Nat → Message B T S
deriving DecidableEq

/-- Result of running a decoding function: a message, a returned error, or
a Rust panic. -/
inductive DecodeOutcome (B T S : Type) where
  | ok : Message B T S → DecodeOutcome B T S
  | err : Error → DecodeOutcome B T S
  | panicked : DecodeOutcome B T S
deriving DecidableEq

namespace Message

variable {B T S : Type}

/-- `Message::topic` / `Message::topic_str` from src/message.rs, as topic
bytes. -/
def topic : Message B T S → List Nat
  | .HashBlock _ _ => hashblockTopic
  | .HashTx _ _ => hashtxTopic
  | .HashWTx _ _ _ => hashwtxTopic
  | .Block _ _ => rawblockTopic
  | .Tx _ _ => rawtxTopic
  | .Sequence _ _ => sequenceTopic

/-- `Message::sequence` from src/message.rs. -/
def sequence : Message B T S → Nat
  | .HashBlock _ s => s
  | .HashTx _ s => s
  | .HashWTx _ _ s => s
  | .Block _ s => s
  | .Tx _ s => s
  | .Sequence _ s => s

/-- `Message::serialize_data_to_vec` from src/message.rs; `none` models a
panic.  In the `HashWTx` arm the source pads the wallet bytes into a
`[u8; 32]` (a panic if the label exceeds 32 bytes), concatenates the
32-byte txid array with it into a 64-byte `Vec`, and then converts that
`Vec` back into the `[u8; 32]` type forced on `arr` by the other two match
arms, panicking whenever the length is not 32; afterwards `arr` is
reversed and returned. -/
def serialize_data_to_vec (CB : Codec B) (CT : Codec T) (CS : Codec S) :
    Message B T S → Option (List Nat)
  | .HashBlock h _ => some h.reverse
  | .HashTx h _ => some h.reverse
  | .HashWTx h w _ =>
    if w.length ≤ 32 then
      let padded_wallet := w ++ List.replicate (32 - w.length) 0
      let result := h ++ padded_wallet
      if result.length = 32 then some result.reverse else none
    else none
  | .Block b _ => some (CB.ser b)
  | .Tx t _ => some (CT.ser t)
  | .Sequence sm _ => some (CS.ser sm)

/-- `Message::serialize_to_vecs` from src/message.rs: the three wire
frames (topic, data, little-endian sequence); `none` models a panic
bubbling up from `serialize_data_to_vec`. -/
def serialize_to_vecs (CB : Codec B) (CT : Codec T) (CS : Codec S)
    (m : Message B T S) : Option (List (List Nat)) :=
  (m.serialize_data_to_vec CB CT CS).map
    fun d => [m.topic, d, toLeBytes4 m.sequence]

/-- The 9-byte buffer built in the unknown-topic branch of
`Message::from_parts`: zero-initialized, with the first `min 9 len` topic
bytes copied in. -/
def topicBuf (topic : List Nat) : List Nat :=
  topic.take (min TOPIC_MAX_LEN topic.length) ++
    List.replicate (TOPIC_MAX_LEN - min TOPIC_MAX_LEN topic.length) 0

/-- `Message::from_parts` from src/message.rs.  Notable source facts kept
verbatim: the `hashwtx` arm slices `data[..32]` (a panic when the payload
is shorter than 32 bytes, the `map_err` being unreachable), does not
reverse the 32 hash bytes, and keeps the remaining bytes as the lossily
decoded label; the `hashblock` / `hashtx` arm reverses its 32 bytes. -/
def from_parts (CB : Codec B) (CT : Codec T) (CS : Codec S)
    (topic data seqBytes : List Nat) : DecodeOutcome B T S :=
  let seq := fromLeBytes4 seqBytes
  if topic = hashblockTopic ∨ topic = hashtxTopic then
    if data.length = 32 then
      if topic = hashblockTopic then .ok (.HashBlock data.reverse seq)
      else .ok (.HashTx data.reverse seq)
    else .err (.Invalid256BitHashLength data.length)
  else if topic = rawblockTopic then
    match CB.deser data with
    | some b => .ok (.Block b seq)
    | none => .err .ConsensusDecodeError
  else if topic = rawtxTopic then
    match CT.deser data with
    | some t => .ok (.Tx t seq)
    | none => .err .ConsensusDecodeError
  else if topic = sequenceTopic then
    match CS.deser data with
    | some sm => .ok (.Sequence sm seq)
    | none => .err (.InvalidSequenceMessageLength data.length)
  else if topic = hashwtxTopic then
    if 32 ≤ data.length then
      .ok (.HashWTx (data.take 32) (from_utf8_lossy (data.drop 32)) seq)
    else .panicked
  else
    .err (.InvalidTopic topic.length (topicBuf topic))

/-- `Message::from_fixed_size_multipart` from src/message.rs: checks the
trailing sequence frame is exactly 4 bytes before `from_parts`. -/
def from_fixed_size_multipart (CB : Codec B) (CT : Codec T) (CS : Codec S)
    (topic data seqFrame : List Nat) : DecodeOutcome B T S :=
  if seqFrame.length = 4 then from_parts CB CT CS topic data seqFrame
  else .err (.InvalidSequenceLength seqFrame.length)

/-- `Message::from_multipart` from src/message.rs: requires exactly 3
frames before any per-field decoding. -/
def from_multipart (CB : Codec B) (CT : Codec T) (CS : Codec S)
    (mp : List (List Nat)) : DecodeOutcome B T S :=
  match mp with
  | [topic, data, seqFrame] =>
    from_fixed_size_multipart CB CT CS topic data seqFrame
  | _ => .err (.InvalidMutlipartLength mp.length)

/-- Whether the message is the wallet-tagged variant. -/
def isHashWTx : Message B T S → Bool
  | .HashWTx _ _ _ => true
  | _ => false

/-- The stored hash byte array of a hash-bearing variant. -/
def hashBytes : Message B T S → Option (List Nat)
  | .HashBlock h _ => some h
  | .HashTx h _ => some h
  | .HashWTx h _ _ => some h
  | _ => none

/-- Well-formedness that the Rust types enforce by construction: hash
arrays are `[u8; 32]`, so 32 bytes long, and the sequence number is a
`u32`, so below `2 ^ 32`. -/
def wfb : Message B T S → Bool
  | .HashBlock h s => h.length == 32 && decide (s < 4294967296)
  | .HashTx h s => h.length == 32 && decide (s < 4294967296)
  | .HashWTx h _ s => h.length == 32 && decide (s < 4294967296)
  | .Block _ s => decide (s < 4294967296)
  | .Tx _ s => decide (s < 4294967296)
  | .Sequence _ s => decide (s < 4294967296)

end Message

/-- The trivial injected codec on `Unit`, used to instantiate the codec
parameters at concrete inputs. -/
def unitCodec : Codec Unit where
  ser := fun _ => []
  deser := fun _ => some ()

/-- Whether a topic byte string is one of the 6 topics recognized by
`Message::from_parts`. -/
def knownTopicb (t : List Nat) : Bool :=
  t == hashblockTopic || t == hashtxTopic || t == hashwtxTopic ||
    t == rawblockTopic || t == rawtxTopic || t == sequenceTopic

end GhostZmq

namespace GhostZmq

/-- Reading back the little-endian encoding of a `u32` value returns that
value. -/
theorem fromLe_toLe (n : Nat) (h : n < 4294967296) :
    fromLeBytes4 (toLeBytes4 n) = n := by
  simp only [fromLeBytes4, toLeBytes4]
  omega

/-- The little-endian encoding of a sequence number is 4 bytes long. -/
theorem toLeBytes4_length (n : Nat) : (toLeBytes4 n).length = 4 := rfl

/-- C2: the claim states that encoding a `HashWTx` notification with a
label of at most 32 bytes produces a 64-byte data frame (reversed hash
followed by the zero-padded label).  In the source, the 64-byte
concatenation is converted by `try_into` into the `[u8; 32]` type forced
on `arr` by the `HashBlock` / `HashTx` match arms, so
`serialize_data_to_vec` panics (modelled as `none`) on every `HashWTx`
value, here evaluated at an empty label and at a 3-byte label. -/
theorem C2_hashwtx_encode_panics :
    Message.serialize_data_to_vec unitCodec unitCodec unitCodec
      (.HashWTx (List.replicate 32 0) [] 0) = none ∧
    Message.serialize_data_to_vec unitCodec unitCodec unitCodec
      (.HashWTx (List.replicate 32 0) [97, 98, 99] 7) = none := by
  decide

/-- C3: the claim states that decoding topic `hashwtx` reverses the first
32 payload bytes into the hash and returns `Invalid256BitHashLength` on
payloads shorter than 32 bytes.  The source instead panics on short
payloads (the slice `data[..32]` is out of bounds, making the `map_err`
unreachable) and stores the first 32 bytes without reversing them: here a
0-byte payload yields a panic, and the payload `0, 1, ..., 31` is stored
as the hash bytes unchanged even though it is not reverse-invariant. -/
theorem C3_hashwtx_decode_deviates :
    Message.from_parts (B := Unit) unitCodec unitCodec unitCodec
      hashwtxTopic [] [0, 0, 0, 0] = .panicked ∧
    Message.from_parts (B := Unit) unitCodec unitCodec unitCodec
      hashwtxTopic (List.range 32) [9, 0, 0, 0] =
      .ok (.HashWTx (List.range 32) [] 9) ∧
    (List.range 32).reverse ≠ List.range 32 := by
  decide

/-- C9: a frame group whose element count is not exactly 3 decodes to
`InvalidMutlipartLength` carrying that count, whatever the frames hold,
before any per-field decoding; a 3-frame group whose trailing sequence
frame is not exactly 4 bytes decodes to `InvalidSequenceLength` carrying
that length. -/
theorem C9_frame_shape {B T S : Type} (CB : Codec B) (CT : Codec T)
    (CS : Codec S) :
    (∀ mp : List (List Nat), mp.length ≠ 3 →
      Message.from_multipart CB CT CS mp =
        .err (.InvalidMutlipartLength mp.length)) ∧
    (∀ topic data seqFrame : List Nat, seqFrame.length ≠ 4 →
      Message.from_multipart CB CT CS [topic, data, seqFrame] =
        .err (.InvalidSequenceLength seqFrame.length)) := by
  constructor
  · intro mp h
    rcases mp with _ | ⟨a, _ | ⟨b, _ | ⟨c, _ | ⟨d, t⟩⟩⟩⟩ <;>
      simp_all [Message.from_multipart]
  · intro topic data seqFrame h
    simp [Message.from_multipart, Message.from_fixed_size_multipart, h]

/-- C9 witness: a 2-frame group yields `InvalidMutlipartLength 2`, and a
3-frame group with an 11-byte sequence frame yields
`InvalidSequenceLength 11`. -/
theorem C9_frame_shape_witness :
    ([[], []] : List (List Nat)).length ≠ 3 ∧
    Message.from_multipart (B := Unit) unitCodec unitCodec unitCodec
      [[], []] = .err (.InvalidMutlipartLength 2) ∧
    (List.replicate 11 0).length ≠ 4 ∧
    Message.from_multipart (B := Unit) unitCodec unitCodec unitCodec
      [hashtxTopic, [], List.replicate 11 0] =
      .err (.InvalidSequenceLength 11) :=
  ⟨by decide,
   (C9_frame_shape unitCodec unitCodec unitCodec).1 [[], []] (by decide),
   by decide,
   (C9_frame_shape unitCodec unitCodec unitCodec).2 hashtxTopic []
     (List.replicate 11 0) (by decide)⟩

/-- C7: for topics `hashblock` and `hashtx`, a 32-byte payload decodes to
a message whose stored hash bytes are the payload reversed, and whose
re-encoded data frame reproduces the original payload exactly; a payload
of any other length decodes to `Invalid256BitHashLength` carrying the
observed length. -/
theorem C7_hash_topics {B T S : Type} (CB : Codec B) (CT : Codec T)
    (CS : Codec S) :
    (∀ topic data seqBytes : List Nat,
      (topic = hashblockTopic ∨ topic = hashtxTopic) → data.length = 32 →
      ∃ m, Message.from_parts CB CT CS topic data seqBytes = .ok m ∧
        m.hashBytes = some data.reverse ∧
        m.serialize_data_to_vec CB CT CS = some data) ∧
    (∀ topic data seqBytes : List Nat,
      (topic = hashblockTopic ∨ topic = hashtxTopic) → data.length ≠ 32 →
      Message.from_parts CB CT CS topic data seqBytes =
        .err (.Invalid256BitHashLength data.length)) := by
  constructor
  · intro topic data seqBytes htop h32
    rcases htop with rfl | rfl
    · exact ⟨.HashBlock data.reverse (fromLeBytes4 seqBytes),
        by simp [Message.from_parts, h32], rfl,
        by simp [Message.serialize_data_to_vec]⟩
    · exact ⟨.HashTx data.reverse (fromLeBytes4 seqBytes),
        by simp [Message.from_parts, h32, hashtxTopic, hashblockTopic], rfl,
        by simp [Message.serialize_data_to_vec]⟩
  · intro topic data seqBytes htop h32
    rcases htop with rfl | rfl <;>
      simp [Message.from_parts, h32, hashtxTopic, hashblockTopic]

/-- C7 witness: the payload `0, 1, ..., 31` under topic `hashtx` decodes
with the hash reversed and re-encodes to itself, and a 20-byte payload
under topic `hashblock` yields `Invalid256BitHashLength 20`. -/
theorem C7_hash_topics_witness :
    (List.range 32).length = 32 ∧
    (∃ m : Message Unit Unit Unit,
      Message.from_parts unitCodec unitCodec unitCodec
        hashtxTopic (List.range 32) [0, 0, 0, 0] = .ok m ∧
      m.hashBytes = some (List.range 32).reverse ∧
      m.serialize_data_to_vec unitCodec unitCodec unitCodec =
        some (List.range 32)) ∧
    (List.replicate 20 0).length ≠ 32 ∧
    Message.from_parts (B := Unit) unitCodec unitCodec unitCodec
      hashblockTopic (List.replicate 20 0) [0, 0, 0, 0] =
      .err (.Invalid256BitHashLength 20) :=
  ⟨by decide,
   (C7_hash_topics unitCodec unitCodec unitCodec).1 hashtxTopic
     (List.range 32) [0, 0, 0, 0] (Or.inr rfl) (by decide),
   by decide,
   (C7_hash_topics unitCodec unitCodec unitCodec).2 hashblockTopic
     (List.replicate 20 0) [0, 0, 0, 0] (Or.inl rfl) (by decide)⟩

/-- C8: any topic other than the 6 known ones decodes to `InvalidTopic`
carrying the true original topic length, and the carried 9-byte buffer
truncated to `min 9 length` equals the first `min 9 length` topic bytes
(the diagnostic snapshot). -/
theorem C8_unknown_topic {B T S : Type} (CB : Codec B) (CT : Codec T)
    (CS : Codec S) :
    ∀ topic data seqFrame : List Nat,
      knownTopicb topic = false → seqFrame.length = 4 →
      Message.from_multipart CB CT CS [topic, data, seqFrame] =
        .err (.InvalidTopic topic.length (Message.topicBuf topic)) ∧
      (Message.topicBuf topic).length = 9 ∧
      (Message.topicBuf topic).take (min 9 topic.length) =
        topic.take (min 9 topic.length) := by
  intro topic data seqFrame hk h4
  simp only [knownTopicb, Bool.or_eq_false_iff, beq_eq_false_iff_ne,
    ne_eq] at hk
  obtain ⟨⟨⟨⟨⟨h1, h2⟩, h3⟩, h4t⟩, h5⟩, h6⟩ := hk
  refine ⟨?_, ?_, ?_⟩
  · simp [Message.from_multipart, Message.from_fixed_size_multipart, h4,
      Message.from_parts, h1, h2, h3, h4t, h5, h6]
  · simp only [Message.topicBuf, TOPIC_MAX_LEN, List.length_append,
      List.length_take, List.length_replicate]
    omega
  · have hlen : (topic.take (min 9 topic.length)).length =
        min 9 topic.length := by
      simp only [List.length_take]
      omega
    simp only [Message.topicBuf, TOPIC_MAX_LEN]
    exact List.take_left' hlen

/-- C8 witness: the empty topic yields snapshot data of length 0, and the
10-byte topic `hashblock!` yields length 10 with the 9-byte snapshot
`hashblock`. -/
theorem C8_unknown_topic_witness :
    knownTopicb [] = false ∧
    knownTopicb (hashblockTopic ++ [33]) = false ∧
    Message.topicBuf (hashblockTopic ++ [33]) = hashblockTopic ∧
    (Message.from_multipart (B := Unit) unitCodec unitCodec unitCodec
        [[], [], [0, 0, 0, 0]] =
        .err (.InvalidTopic ([] : List Nat).length (Message.topicBuf [])) ∧
      (Message.topicBuf ([] : List Nat)).length = 9 ∧
      (Message.topicBuf ([] : List Nat)).take (min 9 ([] : List Nat).length) =
        ([] : List Nat).take (min 9 ([] : List Nat).length)) ∧
    (Message.from_multipart (B := Unit) unitCodec unitCodec unitCodec
        [hashblockTopic ++ [33], [], [0, 0, 0, 0]] =
        .err (.InvalidTopic (hashblockTopic ++ [33]).length
          (Message.topicBuf (hashblockTopic ++ [33]))) ∧
      (Message.topicBuf (hashblockTopic ++ [33])).length = 9 ∧
      (Message.topicBuf (hashblockTopic ++ [33])).take
          (min 9 (hashblockTopic ++ [33]).length) =
        (hashblockTopic ++ [33]).take
          (min 9 (hashblockTopic ++ [33]).length)) :=
  ⟨by decide, by decide, by decide,
   C8_unknown_topic unitCodec unitCodec unitCodec [] [] [0, 0, 0, 0]
     (by decide) (by decide),
   C8_unknown_topic unitCodec unitCodec unitCodec (hashblockTopic ++ [33])
     [] [0, 0, 0, 0] (by decide) (by decide)⟩

/-- C1 counterexample: the claim states `decode(encode(v)) == v` for every
value of all six variants.  For the wallet-tagged variant the encoder
panics (the 64-byte hash-plus-padded-label `Vec` is converted into the
`[u8; 32]` type forced on `arr` by the other match arms), so no frame
triple is produced at all and the round trip fails at this well-formed
value. -/
theorem C1_round_trip_counterexample :
    Message.wfb (B := Unit) (T := Unit) (S := Unit)
      (.HashWTx (List.replicate 32 0) [] 0) = true ∧
    ¬ ∃ frames,
        Message.serialize_to_vecs unitCodec unitCodec unitCodec
          (.HashWTx (List.replicate 32 0) [] 0) = some frames ∧
        Message.from_multipart unitCodec unitCodec unitCodec frames =
          .ok (.HashWTx (List.replicate 32 0) [] 0) := by
  refine ⟨by decide, ?_⟩
  rintro ⟨frames, hf, -⟩
  have hnone : Message.serialize_to_vecs unitCodec unitCodec unitCodec
      (.HashWTx (B := Unit) (T := Unit) (S := Unit)
        (List.replicate 32 0) [] 0) = none := by decide
  rw [hnone] at hf
  exact Option.noConfusion hf

/-- C1 (amended): for every well-formed notification of the five variants
other than the wallet-tagged one — with the `Block`, `Transaction` and
`SequenceMessage` payloads handled by injected codecs satisfying their
round-trip law — encoding produces a frame triple that decodes back to
exactly the original value. -/
theorem C1_round_trip {B T S : Type} (CB : Codec B) (CT : Codec T)
    (CS : Codec S)
    (hB : ∀ b, CB.deser (CB.ser b) = some b)
    (hT : ∀ t, CT.deser (CT.ser t) = some t)
    (hS : ∀ sm, CS.deser (CS.ser sm) = some sm)
    (m : Message B T S) (hwf : m.wfb = true) (hw : m.isHashWTx = false) :
    ∃ frames, m.serialize_to_vecs CB CT CS = some frames ∧
      Message.from_multipart CB CT CS frames = .ok m := by
  cases m with
  | HashBlock h s =>
    simp only [Message.wfb, Bool.and_eq_true, beq_iff_eq,
      decide_eq_true_eq] at hwf
    refine ⟨[hashblockTopic, h.reverse, toLeBytes4 s], ?_, ?_⟩
    · simp [Message.serialize_to_vecs, Message.serialize_data_to_vec,
        Message.topic, Message.sequence]
    · simp [Message.from_multipart, Message.from_fixed_size_multipart,
        toLeBytes4_length, Message.from_parts, hwf.1,
        fromLe_toLe s hwf.2]
  | HashTx h s =>
    simp only [Message.wfb, Bool.and_eq_true, beq_iff_eq,
      decide_eq_true_eq] at hwf
    refine ⟨[hashtxTopic, h.reverse, toLeBytes4 s], ?_, ?_⟩
    · simp [Message.serialize_to_vecs, Message.serialize_data_to_vec,
        Message.topic, Message.sequence]
    · simp [Message.from_multipart, Message.from_fixed_size_multipart,
        toLeBytes4_length, Message.from_parts, hwf.1,
        fromLe_toLe s hwf.2, hashtxTopic, hashblockTopic]
  | HashWTx h w s => simp [Message.isHashWTx] at hw
  | Block b s =>
    simp only [Message.wfb, decide_eq_true_eq] at hwf
    refine ⟨[rawblockTopic, CB.ser b, toLeBytes4 s], ?_, ?_⟩
    · simp [Message.serialize_to_vecs, Message.serialize_data_to_vec,
        Message.topic, Message.sequence]
    · simp [Message.from_multipart, Message.from_fixed_size_multipart,
        toLeBytes4_length, Message.from_parts, hB b,
        fromLe_toLe s hwf, rawblockTopic, hashblockTopic, hashtxTopic]
  | Tx t s =>
    simp only [Message.wfb, decide_eq_true_eq] at hwf
    refine ⟨[rawtxTopic, CT.ser t, toLeBytes4 s], ?_, ?_⟩
    · simp [Message.serialize_to_vecs, Message.serialize_data_to_vec,
        Message.topic, Message.sequence]
    · simp [Message.from_multipart, Message.from_fixed_size_multipart,
        toLeBytes4_length, Message.from_parts, hT t,
        fromLe_toLe s hwf, rawtxTopic, rawblockTopic, hashblockTopic,
        hashtxTopic]
  | Sequence sm s =>
    simp only [Message.wfb, decide_eq_true_eq] at hwf
    refine ⟨[sequenceTopic, CS.ser sm, toLeBytes4 s], ?_, ?_⟩
    · simp [Message.serialize_to_vecs, Message.serialize_data_to_vec,
        Message.topic, Message.sequence]
    · simp [Message.from_multipart, Message.from_fixed_size_multipart,
        toLeBytes4_length, Message.from_parts, hS sm,
        fromLe_toLe s hwf, sequenceTopic, rawtxTopic, rawblockTopic,
        hashblockTopic, hashtxTopic]

/-- C1 witness: a concrete `HashBlock` value with the trivial injected
codecs round-trips through the three wire frames. -/
theorem C1_round_trip_witness :
    Message.wfb (B := Unit) (T := Unit) (S := Unit)
      (.HashBlock (List.replicate 32 7) 5) = true ∧
    Message.isHashWTx (B := Unit) (T := Unit) (S := Unit)
      (.HashBlock (List.replicate 32 7) 5) = false ∧
    ∃ frames,
      Message.serialize_to_vecs unitCodec unitCodec unitCodec
        (.HashBlock (List.replicate 32 7) 5) = some frames ∧
      Message.from_multipart unitCodec unitCodec unitCodec frames =
        .ok (.HashBlock (List.replicate 32 7) 5) :=
  ⟨by decide, by decide,
   C1_round_trip unitCodec unitCodec unitCodec
     (fun _ => rfl) (fun _ => rfl) (fun _ => rfl)
     (.HashBlock (List.replicate 32 7) 5) (by decide) (by decide)⟩

/-! Embedding of src/subscribe/stream.rs.  The generic payload type `μ`
stands for the decoded `Message` type, which the stream state machines
treat as opaque.  A modelled stream carries the list of results its
successive polls will produce; an exhausted list polls as pending
forever. -/

/-- Modelled from the spec: the `SocketEvent` enum of event.rs is not
under src/; the spec lists HandshakeSucceeded, Disconnected and other
connection lifecycle events (connecting, connect-delayed, closing, etc.)
that are observed but not acted upon, so the remaining kinds are one
constructor carrying their event code. -/
inductive SocketEvent where
  | HandshakeSucceeded : SocketEvent
  | Disconnected : SocketEvent
  | Other : Nat → SocketEvent
deriving DecidableEq, Repr

/-- Modelled from the spec: the raw frame pair carried by the monitor
channel (event code + metadata, peer address), with event.rs not under
src/ the first frame is modelled as the event it denotes and the second
as the peer address bytes. -/
structure RawEventMsg where
  event : SocketEvent
  source : List Nat
deriving DecidableEq, Repr

/-- Modelled from the spec: `EventMessage` as decoded by
`EventMessage::parse_from` (event.rs, not under src/): the connection
event plus the peer address, of which only the first frame is decoded. -/
structure EventMessage where
  event : SocketEvent
  source : List Nat
deriving DecidableEq, Repr

/-- Modelled from the spec: `EventMessage::parse_from` (event.rs, not
under src/) decodes the first frame of the pair into the connection
event. -/
def EventMessage.parse_from (r : RawEventMsg) : EventMessage :=
  ⟨r.event, r.source⟩

deriving instance DecidableEq for Except

/-- The result of one poll of an inner stream: an item is ready, or the
stream is pending. -/
inductive Poll (α : Type) where
  | Ready : α → Poll α
  | Pending : Poll α
deriving DecidableEq

/-- The observable result of one `poll_next` call on a wrapped stream:
`item` is `Poll::Ready(Some(..))`, `ended` is `Poll::Ready(None)`,
`pending` is `Poll::Pending`, and `panicked` models a Rust panic. -/
inductive StreamPoll (α : Type) where
  | item : α → StreamPoll α
  | ended : StreamPoll α
  | pending : StreamPoll α
  | panicked : StreamPoll α
deriving DecidableEq

/-- `SocketMessage` from src/subscribe/stream.rs. -/
inductive SocketMessage (μ : Type) where
  | Message : μ → SocketMessage μ
  | Event : EventMessage → SocketMessage μ
deriving DecidableEq

/-- `SocketMessageStream` from src/subscribe/stream.rs: the data stream
(`MessageStream`, whose items are already-decoded results — recv_internal
of subscribe/mod.rs is not under src/ and is, per the spec, the frame
codec applied per item) merged with the monitor `Pair` stream, each
modelled as the list of its future poll results.  `Except Nat` stands for
`Result` with an opaque error payload. -/
structure SocketMessageStream (μ : Type) where
  messages : List (Poll (Option (Except Nat μ)))
  monitor : List (Poll (Option (Except Nat RawEventMsg)))
deriving DecidableEq

namespace SocketMessageStream

variable {μ : Type}

/-- `SocketMessageStream::poll_next` from src/subscribe/stream.rs: the
monitor stream is polled first; if it is ready, its item is surfaced at
once (`None` hits the `unwrap` panic, an `Err` is propagated by `?`, an
`Ok` pair is decoded by `EventMessage::parse_from`) and the data stream is
not consulted; only when the monitor is pending is the data stream
polled and its result mapped into `SocketMessage::Message`. -/
def poll_next (s : SocketMessageStream μ) :
    StreamPoll (Except Nat (SocketMessage μ)) × SocketMessageStream μ :=
  match s.monitor with
  | .Ready mi :: mrest =>
    match mi with
    | none => (.panicked, ⟨s.messages, mrest⟩)
    | some (.error e) => (.item (.error e), ⟨s.messages, mrest⟩)
    | some (.ok raw) =>
      (.item (.ok (.Event (EventMessage.parse_from raw))),
        ⟨s.messages, mrest⟩)
  | .Pending :: mrest =>
    match s.messages with
    | .Ready di :: drest =>
      match di with
      | none => (.ended, ⟨drest, mrest⟩)
      | some (.error e) => (.item (.error e), ⟨drest, mrest⟩)
      | some (.ok m) => (.item (.ok (.Message m)), ⟨drest, mrest⟩)
    | .Pending :: drest => (.pending, ⟨drest, mrest⟩)
    | [] => (.pending, ⟨[], mrest⟩)
  | [] =>
    match s.messages with
    | .Ready di :: drest =>
      match di with
      | none => (.ended, ⟨drest, []⟩)
      | some (.error e) => (.item (.error e), ⟨drest, []⟩)
      | some (.ok m) => (.item (.ok (.Message m)), ⟨drest, []⟩)
    | .Pending :: drest => (.pending, ⟨drest, []⟩)
    | [] => (.pending, ⟨[], []⟩)

/-- Whether the head poll of a modelled stream is ready. -/
def headReady {α : Type} : List (Poll α) → Bool
  | .Ready _ :: _ => true
  | _ => false

/-- Only the monitor branch of `poll_next` can surface an `Event`, and it
consumes exactly one monitor entry, leaving the data stream untouched. -/
theorem poll_next_event_shrinks (s s' : SocketMessageStream μ)
    (em : EventMessage)
    (h : s.poll_next = (.item (.ok (.Event em)), s')) :
    s'.monitor.length < s.monitor.length ∧ s'.messages = s.messages := by
  obtain ⟨msgs, mon⟩ := s
  rcases mon with _ | ⟨mh, mrest⟩
  · exfalso
    rcases msgs with _ | ⟨dh, drest⟩
    · simp [poll_next] at h
    · rcases dh with di | _
      · rcases di with _ | ⟨e | m⟩ <;> simp [poll_next] at h
      · simp [poll_next] at h
  · rcases mh with mi | _
    · rcases mi with _ | ⟨e | raw⟩
      · simp [poll_next] at h
      · simp [poll_next] at h
      · simp only [poll_next, Prod.mk.injEq] at h
        obtain ⟨-, h2⟩ := h
        subst h2
        simp
    · exfalso
      rcases msgs with _ | ⟨dh, drest⟩
      · simp [poll_next] at h
      · rcases dh with di | _
        · rcases di with _ | ⟨e | m⟩ <;> simp [poll_next] at h
        · simp [poll_next] at h

end SocketMessageStream

/-- The polling loop inside `FiniteMessageStream::poll_next` from
src/subscribe/stream.rs, run on a live inner stream: a ready `Message`
item or `Err` is forwarded; a ready `Disconnected` event drops the inner
stream (state becomes `none`) and ends the stream; any other ready event
is consumed silently and the inner stream is polled again in the same
cycle; a pending inner stream makes the poll pending; a ready `None`
inner item hits the `unwrap` panic. -/
def finiteLoop {μ : Type} (s : SocketMessageStream μ) :
    StreamPoll (Except Nat μ) × Option (SocketMessageStream μ) :=
  match h : s.poll_next with
  | (.item (.ok (.Message m)), s') => (.item (.ok m), some s')
  | (.item (.ok (.Event em)), s') =>
    if em.event = .Disconnected then (.ended, none)
    else finiteLoop s'
  | (.item (.error e), s') => (.item (.error e), some s')
  | (.ended, s') => (.panicked, some s')
  | (.pending, s') => (.pending, some s')
  | (.panicked, s') => (.panicked, some s')
termination_by s.monitor.length
decreasing_by
  exact (SocketMessageStream.poll_next_event_shrinks s s' em h).1

/-- `FiniteMessageStream` from src/subscribe/stream.rs: an optional inner
merged stream; `none` is the closed state reached after a disconnect. -/
structure FiniteMessageStream (μ : Type) where
  inner : Option (SocketMessageStream μ)
deriving DecidableEq

namespace FiniteMessageStream

variable {μ : Type}

/-- `FiniteMessageStream::poll_next` from src/subscribe/stream.rs: runs
the loop on the inner stream while it is live, and returns
`Poll::Ready(None)` forever once the inner stream has been dropped. -/
def poll_next (f : FiniteMessageStream μ) :
    StreamPoll (Except Nat μ) × FiniteMessageStream μ :=
  match f.inner with
  | some s =>
    let r := finiteLoop s
    (r.1, ⟨r.2⟩)
  | none => (.ended, ⟨none⟩)

/-- `FusedStream::is_terminated` for `FiniteMessageStream` from
src/subscribe/stream.rs. -/
def is_terminated (f : FiniteMessageStream μ) : Bool :=
  f.inner.isNone

/-- `k + 1` successive `poll_next` calls, returning the last result. -/
def pollIter : Nat → FiniteMessageStream μ →
    StreamPoll (Except Nat μ) × FiniteMessageStream μ
  | 0, f => f.poll_next
  | k + 1, f => pollIter k (f.poll_next).2

end FiniteMessageStream

/-- The outcome of running the `subscribe_async_wait_handshake` event
loop on a finite list of decoded monitor events: `completed` carries the
events left unconsumed when the pending counter reached zero (the
operation then returns the finite stream), `exhausted` carries the
counter still pending when the event list ran out (the real loop would
keep awaiting the next event), and `underflow` marks the `usize`
decrement `connecting -= 1` being run on a zero counter. -/
inductive HsOutcome where
  | completed : List SocketEvent → HsOutcome
  | exhausted : Nat → HsOutcome
  | underflow : HsOutcome
deriving DecidableEq, Repr

/-- The event loop of `subscribe_async_wait_handshake` from
src/subscribe/stream.rs: per event, `HandshakeSucceeded` decrements the
`connecting` counter, `Disconnected` increments it, any other kind
`continue`s without the zero check; after a decrement or increment the
loop returns as soon as the counter is zero.  Monitor items are modelled
as their decoded connection events. -/
def waitHandshakeLoop : Nat → List SocketEvent → HsOutcome
  | c, [] => .exhausted c
  | c, e :: rest =>
    match e with
    | .HandshakeSucceeded =>
      if c = 0 then .underflow
      else if c - 1 = 0 then .completed rest
      else waitHandshakeLoop (c - 1) rest
    | .Disconnected =>
      if c + 1 = 0 then .completed rest
      else waitHandshakeLoop (c + 1) rest
    | .Other _ => waitHandshakeLoop c rest

/-- `subscribe_async_wait_handshake` from src/subscribe/stream.rs,
abstracted over the decoded monitor events: `connecting` starts at the
endpoint count; a zero count completes immediately, before any event is
consulted; otherwise the event loop runs. -/
def subscribe_async_wait_handshake (n : Nat) (events : List SocketEvent) :
    HsOutcome :=
  if n = 0 then .completed events else waitHandshakeLoop n events

/-- The contribution of one connection event to the pending-endpoint
counter. -/
def eventDelta : SocketEvent → Int
  | .HandshakeSucceeded => -1
  | .Disconnected => 1
  | .Other _ => 0

/-- The value of the pending counter after a prefix of events has been
processed, starting from `n`. -/
def pendingAfter (n : Nat) (pre : List SocketEvent) : Int :=
  (n : Int) + (pre.map eventDelta).sum

/-- `events` splits as a processed prefix after which the pending counter
is zero for the first time, followed by `rest`. -/
def firstZeroSplit (n : Nat) (events rest : List SocketEvent) : Prop :=
  ∃ pre, events = pre ++ rest ∧ pendingAfter n pre = 0 ∧
    ∀ q r, q ++ r = pre → r ≠ [] → pendingAfter n q ≠ 0

/-- Extending the processed prefix by one event shifts the start counter
by that event's delta. -/
theorem pendingAfter_cons (n : Nat) (e : SocketEvent)
    (pre : List SocketEvent) :
    pendingAfter n (e :: pre) = eventDelta e + pendingAfter n pre := by
  simp [pendingAfter]
  ring

/-- Peeling one event off a first-zero split: with a nonzero start
counter, the remaining events split at the first zero of the shifted
counter, and a shift to zero completes at once. -/
theorem firstZeroSplit_cons (n n' : Nat) (e : SocketEvent)
    (t rest : List SocketEvent) (hn : n ≠ 0)
    (hne : (n' : Int) = (n : Int) + eventDelta e) :
    firstZeroSplit n (e :: t) rest ↔
      (if n' = 0 then rest = t else firstZeroSplit n' t rest) := by
  have hshift : ∀ q : List SocketEvent,
      pendingAfter n (e :: q) = pendingAfter n' q := by
    intro q
    rw [pendingAfter_cons]
    simp only [pendingAfter, hne]
    ring
  constructor
  · rintro ⟨pre, hsplit, hzero, hmin⟩
    cases pre with
    | nil =>
      exfalso
      apply hn
      have : (n : Int) = 0 := by simpa [pendingAfter] using hzero
      exact_mod_cast this
    | cons e0 pre2 =>
      have he0 : e = e0 := by
        have := congrArg (fun l => l.head?) hsplit
        simpa using this
      subst he0
      have ht : t = pre2 ++ rest := by
        have := congrArg (fun l => l.tail) hsplit
        simpa using this
      have hz2 : pendingAfter n' pre2 = 0 := by
        rw [← hshift]
        exact hzero
      have hmin2 : ∀ q r, q ++ r = pre2 → r ≠ [] →
          pendingAfter n' q ≠ 0 := by
        intro q r hqr hr
        rw [← hshift]
        exact hmin (e :: q) r (by simp [hqr]) hr
      by_cases h0 : n' = 0
      · rw [if_pos h0]
        cases pre2 with
        | nil => simpa using ht.symm
        | cons x xs =>
          exfalso
          apply hmin2 [] (x :: xs) rfl (by simp)
          simp [pendingAfter, h0]
      · rw [if_neg h0]
        exact ⟨pre2, ht, hz2, hmin2⟩
  · intro h
    by_cases h0 : n' = 0
    · rw [if_pos h0] at h
      subst h
      refine ⟨[e], rfl, ?_, ?_⟩
      · rw [hshift []]
        simp [pendingAfter, h0]
      · intro q r hqr hr
        cases q with
        | nil =>
          simp only [pendingAfter, List.map_nil, List.sum_nil, add_zero]
          exact_mod_cast hn
        | cons a as =>
          exfalso
          apply hr
          have h1 : as ++ r = [] := by
            have := congrArg (fun l => l.tail) hqr
            simpa using this
          exact (List.append_eq_nil.mp h1).2
    · rw [if_neg h0] at h
      obtain ⟨pre2, hsplit, hz2, hmin2⟩ := h
      refine ⟨e :: pre2, by simp [hsplit], ?_, ?_⟩
      · rw [hshift]
        exact hz2
      · intro q r hqr hr
        cases q with
        | nil =>
          simp only [pendingAfter, List.map_nil, List.sum_nil, add_zero]
          exact_mod_cast hn
        | cons a as =>
          have ha : a = e := by
            have := congrArg (fun l => l.head?) hqr
            simpa using this
          subst ha
          have h1 : as ++ r = pre2 := by
            have := congrArg (fun l => l.tail) hqr
            simpa using this
          rw [hshift]
          exact hmin2 as r h1 hr

/-- With a nonzero start counter, the event loop completes with remainder
`rest` exactly when the events split at the first zero of the counter. -/
theorem waitHandshakeLoop_completed_iff :
    ∀ (events : List SocketEvent) (n : Nat), 1 ≤ n →
    ∀ rest, (waitHandshakeLoop n events = .completed rest ↔
      firstZeroSplit n events rest) := by
  intro events
  induction events with
  | nil =>
    intro n hn rest
    constructor
    · intro h
      simp [waitHandshakeLoop] at h
    · rintro ⟨pre, hsplit, hzero, -⟩
      exfalso
      obtain ⟨hpre, -⟩ := List.append_eq_nil.mp hsplit.symm
      subst hpre
      have : (n : Int) = 0 := by simpa [pendingAfter] using hzero
      omega
  | cons e t ih =>
    intro n hn rest
    cases e with
    | HandshakeSucceeded =>
      rw [firstZeroSplit_cons n (n - 1) _ t rest (by omega)
        (by simp [eventDelta]; omega)]
      simp only [waitHandshakeLoop]
      rw [if_neg (show ¬ n = 0 by omega)]
      by_cases h1 : n - 1 = 0
      · rw [if_pos h1, if_pos h1]
        exact ⟨fun h => by injection h with h; exact h.symm,
          fun h => by rw [h]⟩
      · rw [if_neg h1, if_neg h1]
        exact ih (n - 1) (by omega) rest
    | Disconnected =>
      rw [firstZeroSplit_cons n (n + 1) _ t rest (by omega)
        (by simp [eventDelta])]
      simp only [waitHandshakeLoop]
      rw [if_neg (show ¬ n + 1 = 0 by omega),
        if_neg (show ¬ n + 1 = 0 by omega)]
      exact ih (n + 1) (by omega) rest
    | Other k =>
      rw [firstZeroSplit_cons n n _ t rest (by omega)
        (by simp [eventDelta])]
      rw [if_neg (show ¬ n = 0 by omega)]
      simp only [waitHandshakeLoop]
      exact ih n hn rest

/-- C4: with 0 configured endpoints the handshake wait completes at once
with every event unconsulted; with `n ≥ 1` endpoints it completes with
remainder `rest` exactly when the events split as a processed prefix
after which the pending counter — decremented by each
`HandshakeSucceeded`, incremented by each `Disconnected`, unchanged by
every other kind — reaches zero for the first time. -/
theorem C4_handshake_wait :
    (∀ events : List SocketEvent,
      subscribe_async_wait_handshake 0 events = .completed events) ∧
    (∀ (n : Nat) (events rest : List SocketEvent), 1 ≤ n →
      (subscribe_async_wait_handshake n events = .completed rest ↔
        firstZeroSplit n events rest)) := by
  constructor
  · intro events
    simp [subscribe_async_wait_handshake]
  · intro n events rest hn
    unfold subscribe_async_wait_handshake
    rw [if_neg (by omega)]
    exact waitHandshakeLoop_completed_iff events n hn rest

/-- C4 witness: with 0 endpoints the wait returns at once; with 2
endpoints the event trace success, other, disconnect, success, success
completes exactly at its end, consuming every event, and the
first-zero-split characterization holds there. -/
theorem C4_handshake_wait_witness :
    subscribe_async_wait_handshake 0 [SocketEvent.Disconnected] =
      .completed [SocketEvent.Disconnected] ∧
    (1 : Nat) ≤ 2 ∧
    subscribe_async_wait_handshake 2
      [SocketEvent.HandshakeSucceeded, SocketEvent.Other 1,
        SocketEvent.Disconnected, SocketEvent.HandshakeSucceeded,
        SocketEvent.HandshakeSucceeded] = .completed [] ∧
    firstZeroSplit 2
      [SocketEvent.HandshakeSucceeded, SocketEvent.Other 1,
        SocketEvent.Disconnected, SocketEvent.HandshakeSucceeded,
        SocketEvent.HandshakeSucceeded] [] :=
  ⟨C4_handshake_wait.1 [SocketEvent.Disconnected], by decide, by decide,
   (C4_handshake_wait.2 2
     [SocketEvent.HandshakeSucceeded, SocketEvent.Other 1,
       SocketEvent.Disconnected, SocketEvent.HandshakeSucceeded,
       SocketEvent.HandshakeSucceeded] [] (by decide)).mp (by decide)⟩

/-- The event loop never underflows while its counter is positive. -/
theorem waitHandshakeLoop_no_underflow :
    ∀ (events : List SocketEvent) (c : Nat), 1 ≤ c →
      waitHandshakeLoop c events ≠ .underflow := by
  intro events
  induction events with
  | nil =>
    intro c hc
    simp [waitHandshakeLoop]
  | cons e rest ih =>
    intro c hc
    cases e with
    | HandshakeSucceeded =>
      simp only [waitHandshakeLoop]
      rw [if_neg (show ¬ c = 0 by omega)]
      by_cases h1 : c - 1 = 0
      · rw [if_pos h1]
        simp
      · rw [if_neg h1]
        exact ih (c - 1) (by omega)
    | Disconnected =>
      simp only [waitHandshakeLoop]
      rw [if_neg (show ¬ c + 1 = 0 by omega)]
      exact ih (c + 1) (by omega)
    | Other k =>
      simp only [waitHandshakeLoop]
      exact ih c hc

/-- C10: for at least one configured endpoint, the handshake wait loop
never runs its `usize` decrement on a zero counter — the loop returns as
soon as the counter reaches zero, before pulling the next event, so the
counter is at least 1 whenever an event is processed. -/
theorem C10_no_underflow :
    ∀ (n : Nat) (events : List SocketEvent), 1 ≤ n →
      subscribe_async_wait_handshake n events ≠ .underflow := by
  intro n events hn
  unfold subscribe_async_wait_handshake
  rw [if_neg (by omega)]
  exact waitHandshakeLoop_no_underflow events n hn

/-- An entry of the modelled monitor stream that the finite-stream loop
consumes silently: a ready, successfully decoded connection event of any
kind other than `Disconnected`. -/
def ignorableEntry : Poll (Option (Except Nat RawEventMsg)) → Bool
  | .Ready (some (.ok r)) =>
    match r.event with
    | .Disconnected => false
    | _ => true
  | _ => false

/-- Unfolding `finiteLoop` at an inner poll that surfaces a connection
event: a disconnect closes the stream, anything else loops. -/
theorem finiteLoop_event {μ : Type} (s s' : SocketMessageStream μ)
    (em : EventMessage)
    (h : s.poll_next = (.item (.ok (.Event em)), s')) :
    finiteLoop s =
      (if em.event = SocketEvent.Disconnected then (.ended, none)
       else finiteLoop s') := by
  unfold finiteLoop
  split <;> simp_all
  by_cases hc : em.event = SocketEvent.Disconnected
  · simp [hc]
  · simp only [hc, if_false]
    conv_lhs => unfold finiteLoop

/-- Running the finite-stream loop over consumed-silently monitor entries
followed by a ready disconnect event ends the stream and drops the inner
stream. -/
theorem finiteLoop_skips_to_disconnect {μ : Type}
    (msgs : List (Poll (Option (Except Nat μ))))
    (pre tail : List (Poll (Option (Except Nat RawEventMsg))))
    (r : RawEventMsg) (hp : pre.all ignorableEntry = true)
    (hr : r.event = SocketEvent.Disconnected) :
    finiteLoop
      (⟨msgs, pre ++ .Ready (some (.ok r)) :: tail⟩ :
        SocketMessageStream μ) = (.ended, none) := by
  induction pre with
  | nil =>
    rw [List.nil_append]
    rw [finiteLoop_event ⟨msgs, .Ready (some (.ok r)) :: tail⟩
      ⟨msgs, tail⟩ ⟨r.event, r.source⟩ rfl]
    rw [if_pos hr]
  | cons p pre2 ih =>
    simp only [List.all_cons, Bool.and_eq_true] at hp
    obtain ⟨hp1, hp2⟩ := hp
    rcases p with di | _
    · rcases di with _ | ⟨e | r0⟩
      · simp [ignorableEntry] at hp1
      · simp [ignorableEntry] at hp1
      · have hne : ¬ r0.event = SocketEvent.Disconnected := by
          intro hc
          simp [ignorableEntry, hc] at hp1
        rw [List.cons_append]
        rw [finiteLoop_event
          ⟨msgs, .Ready (some (.ok r0)) ::
            (pre2 ++ .Ready (some (.ok r)) :: tail)⟩
          ⟨msgs, pre2 ++ .Ready (some (.ok r)) :: tail⟩
          ⟨r0.event, r0.source⟩ rfl]
        rw [if_neg hne]
        exact ih hp2
    · simp [ignorableEntry] at hp1

/-- C5: the finite stream has the two states live (`inner = some`) and
closed (`inner = none`).  A poll that observes the first ready
`Disconnected` event — past any silently consumed other events — returns
end-of-stream and moves to the closed state; the closed state reports
itself terminated, and every later poll again returns end-of-stream with
the state still closed (no item, no panic, no way out of closed). -/
theorem C5_finite_stream {μ : Type} :
    (∀ (msgs : List (Poll (Option (Except Nat μ))))
        (pre tail : List (Poll (Option (Except Nat RawEventMsg))))
        (r : RawEventMsg), pre.all ignorableEntry = true →
      r.event = SocketEvent.Disconnected →
      FiniteMessageStream.poll_next
          ⟨some ⟨msgs, pre ++ .Ready (some (.ok r)) :: tail⟩⟩ =
        (.ended, ⟨none⟩)) ∧
    FiniteMessageStream.is_terminated
      (⟨none⟩ : FiniteMessageStream μ) = true ∧
    (∀ k, FiniteMessageStream.pollIter k
      (⟨none⟩ : FiniteMessageStream μ) = (.ended, ⟨none⟩)) := by
  refine ⟨?_, rfl, ?_⟩
  · intro msgs pre tail r hp hr
    simp [FiniteMessageStream.poll_next,
      finiteLoop_skips_to_disconnect msgs pre tail r hp hr]
  · intro k
    induction k with
    | zero => rfl
    | succ k ih => exact ih

/-- C5 witness: a concrete live stream whose monitor holds one connecting
event and then a disconnect closes in one poll, and the closed stream
keeps reporting end-of-stream. -/
theorem C5_finite_stream_witness :
    ([Poll.Ready (some (.ok (⟨SocketEvent.Other 2, []⟩ : RawEventMsg)))].all
        ignorableEntry = true) ∧
    (⟨SocketEvent.Disconnected, [5]⟩ : RawEventMsg).event =
      SocketEvent.Disconnected ∧
    FiniteMessageStream.poll_next
        (⟨some ⟨[.Ready (some (.ok 0))],
          [.Ready (some (.ok ⟨SocketEvent.Other 2, []⟩))] ++
            .Ready (some (.ok ⟨SocketEvent.Disconnected, [5]⟩)) ::
              [.Pending]⟩⟩ : FiniteMessageStream Nat) =
      (.ended, ⟨none⟩) ∧
    FiniteMessageStream.is_terminated
      (⟨none⟩ : FiniteMessageStream Nat) = true ∧
    FiniteMessageStream.pollIter 3 (⟨none⟩ : FiniteMessageStream Nat) =
      (.ended, ⟨none⟩) :=
  ⟨by decide, rfl,
   (C5_finite_stream (μ := Nat)).1 [.Ready (some (.ok 0))]
     [.Ready (some (.ok ⟨SocketEvent.Other 2, []⟩))] [.Pending]
     ⟨SocketEvent.Disconnected, [5]⟩ (by decide) rfl,
   (C5_finite_stream (μ := Nat)).2.1,
   (C5_finite_stream (μ := Nat)).2.2 3⟩

/-- C6: per poll cycle of the merged stream, a ready monitor head is
decoded and surfaced at once with the data stream left untouched; the
data stream is consulted only when the monitor head is not ready, a ready
data item is then surfaced and consumed; and the overall poll is pending
exactly when both heads are not ready. -/
theorem C6_poll_priority {μ : Type} :
    (∀ (s : SocketMessageStream μ)
        (mi : Option (Except Nat RawEventMsg)) mrest,
      s.monitor = .Ready mi :: mrest →
      (s.poll_next).2.messages = s.messages ∧
      ∀ raw, mi = some (.ok raw) →
        (s.poll_next).1 =
          .item (.ok (.Event (EventMessage.parse_from raw)))) ∧
    (∀ (s : SocketMessageStream μ) (m : μ)
        (di : Option (Except Nat μ)) drest,
      SocketMessageStream.headReady s.monitor = false →
      s.messages = .Ready di :: drest → di = some (.ok m) →
      (s.poll_next).1 = .item (.ok (.Message m)) ∧
      (s.poll_next).2.messages = drest) ∧
    (∀ s : SocketMessageStream μ,
      (s.poll_next).1 = .pending ↔
        SocketMessageStream.headReady s.monitor = false ∧
        SocketMessageStream.headReady s.messages = false) := by
  refine ⟨?_, ?_, ?_⟩
  · rintro ⟨msgs, mon⟩ mi mrest hm
    dsimp only at hm
    subst hm
    rcases mi with _ | ⟨e | raw0⟩
    · exact ⟨rfl, fun raw h => Option.noConfusion h⟩
    · refine ⟨rfl, fun raw h => ?_⟩
      simp at h
    · refine ⟨rfl, fun raw h => ?_⟩
      simp only [Option.some.injEq, Except.ok.injEq] at h
      subst h
      rfl
  · rintro ⟨msgs, mon⟩ m di drest hmr hmsg hdi
    dsimp only at hmr hmsg
    subst hmsg
    subst hdi
    rcases mon with _ | ⟨mh, mrest⟩
    · exact ⟨rfl, rfl⟩
    · rcases mh with mi | _
      · simp [SocketMessageStream.headReady] at hmr
      · exact ⟨rfl, rfl⟩
  · rintro ⟨msgs, mon⟩
    rcases mon with _ | ⟨mh, mrest⟩
    · rcases msgs with _ | ⟨dh, drest⟩
      · simp [SocketMessageStream.poll_next,
          SocketMessageStream.headReady]
      · rcases dh with di | _
        · rcases di with _ | ⟨e | m⟩ <;>
            simp [SocketMessageStream.poll_next,
              SocketMessageStream.headReady]
        · simp [SocketMessageStream.poll_next,
            SocketMessageStream.headReady]
    · rcases mh with mi | _
      · rcases mi with _ | ⟨e | raw⟩ <;>
          simp [SocketMessageStream.poll_next,
            SocketMessageStream.headReady]
      · rcases msgs with _ | ⟨dh, drest⟩
        · simp [SocketMessageStream.poll_next,
            SocketMessageStream.headReady]
        · rcases dh with di | _
          · rcases di with _ | ⟨e | m⟩ <;>
              simp [SocketMessageStream.poll_next,
                SocketMessageStream.headReady]
          · simp [SocketMessageStream.poll_next,
              SocketMessageStream.headReady]

/-- C6 witness: with a ready monitor event the data item stays queued and
the event is surfaced; with a pending monitor the ready data item 3 is
surfaced and consumed; with both sides pending the poll is pending. -/
theorem C6_poll_priority_witness :
    ((⟨[.Ready (some (.ok 3))],
        [.Ready (some (.ok ⟨SocketEvent.Other 1, []⟩))]⟩ :
      SocketMessageStream Nat).poll_next).2.messages =
        [.Ready (some (.ok 3))] ∧
    ((⟨[.Ready (some (.ok 3))],
        [.Ready (some (.ok ⟨SocketEvent.Other 1, []⟩))]⟩ :
      SocketMessageStream Nat).poll_next).1 =
        .item (.ok (.Event
          (EventMessage.parse_from ⟨SocketEvent.Other 1, []⟩))) ∧
    ((⟨[.Ready (some (.ok 3))], [.Pending]⟩ :
      SocketMessageStream Nat).poll_next).1 =
        .item (.ok (.Message 3)) ∧
    ((⟨[.Ready (some (.ok 3))], [.Pending]⟩ :
      SocketMessageStream Nat).poll_next).2.messages = [] ∧
    ((⟨[.Pending], []⟩ : SocketMessageStream Nat).poll_next).1 =
      .pending :=
  ⟨((C6_poll_priority (μ := Nat)).1
      ⟨[.Ready (some (.ok 3))],
        [.Ready (some (.ok ⟨SocketEvent.Other 1, []⟩))]⟩
      (some (.ok ⟨SocketEvent.Other 1, []⟩)) [] rfl).1,
   ((C6_poll_priority (μ := Nat)).1
      ⟨[.Ready (some (.ok 3))],
        [.Ready (some (.ok ⟨SocketEvent.Other 1, []⟩))]⟩
      (some (.ok ⟨SocketEvent.Other 1, []⟩)) [] rfl).2
     ⟨SocketEvent.Other 1, []⟩ rfl,
   ((C6_poll_priority (μ := Nat)).2.1
      ⟨[.Ready (some (.ok 3))], [.Pending]⟩ 3
      (some (.ok 3)) [] (by decide) rfl rfl).1,
   ((C6_poll_priority (μ := Nat)).2.1
      ⟨[.Ready (some (.ok 3))], [.Pending]⟩ 3
      (some (.ok 3)) [] (by decide) rfl rfl).2,
   ((C6_poll_priority (μ := Nat)).2.2 ⟨[.Pending], []⟩).mpr
     (by decide)⟩

/-- C10 witness: a trace whose disconnect forces an extra success never
hits the underflow outcome. -/
theorem C10_no_underflow_witness :
    (1 : Nat) ≤ 1 ∧
    subscribe_async_wait_handshake 1
      [SocketEvent.Disconnected, SocketEvent.HandshakeSucceeded,
        SocketEvent.HandshakeSucceeded, SocketEvent.Other 0] ≠
      .underflow :=
  ⟨by decide,
   C10_no_underflow 1
     [SocketEvent.Disconnected, SocketEvent.HandshakeSucceeded,
       SocketEvent.HandshakeSucceeded, SocketEvent.Other 0] (by decide)⟩

end GhostZmq
